import Mathlib

set_option maxHeartbeats 1000000

/-!
Verification of the grid-agent in src/src/ArashTarun.py: the greedy best-first
planner `dfs_solve_path_to_goal`, the goal selector `select_closest_goal`, the
frontier selector `select_open_node`, and the per-tick executor `get_next_move`
with its one-step collision guard.

The support classes DriveState, DriveMove and the sensor-data schema live in
files that are not part of the repository snapshot; they are modelled from the
specification (sections 3 and 4.1), as marked on each such definition.

Python's `math.sqrt` of a squared integer distance is strictly monotone in the
squared distance, so every comparison of Euclidean distances in the source is
embedded as the same comparison of squared distances over ℤ.

The planner's `while` loop is embedded with an explicit fuel parameter; the
result `DfsResult.outOfFuel` means the loop has not finished within the given
fuel, `DfsResult.noPath` is the loop falling through with an empty worklist
(the WARN branch of the source), and `DfsResult.found p` is the `return` that
stores `p` into `self.path`.
-/

/-- Modelled from the spec: a drive state is an immutable 2D integer
coordinate, with equality and hashing by value (src/DriveState.py is not in
the repository snapshot). -/
structure DriveState where
  x : Int
  y : Int
deriving DecidableEq

/-- Modelled from the spec: the move enumeration `{NONE, UP, DOWN, LEFT,
RIGHT}` (src/Constants.py is not in the repository snapshot); the
advanced-mode members LIFT_POD and DROP_POD are a stated non-goal of the
spec and are omitted. -/
inductive DriveMove where
  | NONE
  | UP
  | DOWN
  | LEFT
  | RIGHT
deriving DecidableEq

/-- Modelled from the spec: the iteration order of `for move in DriveMove`,
the fixed order `{NONE, UP, DOWN, LEFT, RIGHT}` of spec sections 3 and 4.3. -/
def DriveMove.all : List DriveMove :=
  [DriveMove.NONE, DriveMove.UP, DriveMove.DOWN, DriveMove.LEFT, DriveMove.RIGHT]

/-- Modelled from the spec, section 4.1: `State.next(move)` applies the move's
fixed delta (`UP:(0,+1)`, `DOWN:(0,-1)`, `RIGHT:(+1,0)`, `LEFT:(-1,0)`; NONE
returns the same coordinate). Embeds `DriveState.get_next_state_from_move` of
the missing src/DriveState.py. -/
def DriveState.get_next_state_from_move (s : DriveState) : DriveMove → Int × Int
  | DriveMove.NONE => (s.x, s.y)
  | DriveMove.UP => (s.x, s.y + 1)
  | DriveMove.DOWN => (s.x, s.y - 1)
  | DriveMove.LEFT => (s.x - 1, s.y)
  | DriveMove.RIGHT => (s.x + 1, s.y)

/-- Modelled from the spec: the coordinate pair of a state (`to_tuple` of the
missing src/DriveState.py). -/
def DriveState.to_tuple (s : DriveState) : Int × Int := (s.x, s.y)

/-- The fields of the per-tick sensor snapshot that the basic-mode agent
reads (docstring of `get_next_move`, src/src/ArashTarun.py lines 33-42). -/
structure SensorData where
  field_boundaries : List (Int × Int)
  drive_locations : List (Int × Int)
  player_location : Int × Int
  goal_locations : List (Int × Int)
deriving DecidableEq

/-- Squared Euclidean distance from a goal coordinate to a current
coordinate, the quantity under `math.sqrt` in `select_closest_goal`
(src line 141). -/
def goalDist (goal current : Int × Int) : Int :=
  (goal.1 - current.1) ^ 2 + (goal.2 - current.2) ^ 2

/-- `path[-1]`: the last state of a path (the default for the empty list is
never used by the planner, whose worklist paths are all nonempty). -/
def lastState : List DriveState → DriveState
  | [] => ⟨0, 0⟩
  | [s] => s
  | _ :: s :: rest => lastState (s :: rest)

/-- Squared Euclidean distance from the goal to the last state of a worklist
path, the quantity under `math.sqrt` in `select_open_node` (src line 149). -/
def nodeDist (goal : Int × Int) (path : List DriveState) : Int :=
  (goal.1 - (lastState path).x) ^ 2 + (goal.2 - (lastState path).y) ^ 2

/-- Index of the first occurrence of the minimum of a list, as computed by
Python's `lst.index(min(lst))`; 0 for the empty list (where Python's `min`
raises instead; callers handle that case separately). -/
def argminIdx : List Int → Nat
  | [] => 0
  | [_] => 0
  | v :: w :: rest =>
    if v ≤ (w :: rest).getD (argminIdx (w :: rest)) 0 then 0
    else argminIdx (w :: rest) + 1

/-- Embeds `select_closest_goal` (src lines 138-142): the candidate whose
distance is minimal, at the first index achieving the minimum
(`dists.index(min(dists))`). Python's `min` of the empty distance list raises
`ValueError`, embedded as `none`. -/
def select_closest_goal (goal_list : List (Int × Int)) (current_location : Int × Int) :
    Option (Int × Int) :=
  match goal_list with
  | [] => none
  | _ :: _ =>
    let dists := goal_list.map (fun goal => goalDist goal current_location)
    some (goal_list.getD (argminIdx dists) (0, 0))

/-- Embeds `select_open_node` (src lines 144-151): pops (removes and returns)
the worklist path whose last state is nearest to the goal, at the first index
achieving the minimum; returns the popped path and the remaining worklist.
`none` for the empty worklist (the loop guard of the caller). -/
def select_open_node (paths : List (List DriveState)) (goal : Int × Int) :
    Option (List DriveState × List (List DriveState)) :=
  match paths with
  | [] => none
  | _ :: _ =>
    let dists := paths.map (fun path => nodeDist goal path)
    let i := argminIdx dists
    some (paths.getD i [], paths.eraseIdx i)

/-- Embeds `list_all_next_possible_states` (src lines 120-127): for each move
in enumeration order the successor state is inserted at the head, so the
resulting list is in reversed enumeration order. -/
def list_all_next_possible_states (state : DriveState) : List DriveState :=
  DriveMove.all.foldl
    (fun next_states move =>
      { x := (state.get_next_state_from_move move).1,
        y := (state.get_next_state_from_move move).2 } :: next_states)
    []

/-- Embeds `is_state_in_bounds` (src lines 129-131): a state is in bounds iff
its coordinate pair is not one of the field-boundary cells. -/
def is_state_in_bounds (state : DriveState) (sd : SensorData) : Bool :=
  decide ((state.x, state.y) ∉ sd.field_boundaries)

/-- Outcome of one fuel-bounded run of the planner's worklist loop. -/
inductive DfsResult where
  | found (path : List DriveState)
  | noPath
  | outOfFuel
deriving DecidableEq

/-- Embeds the `while` loop of `dfs_solve_path_to_goal` (src lines 105-118):
pop the nearest path; if its last state is the goal, succeed with it;
otherwise mark the last state visited and append one extended path for every
successor that is neither visited nor a boundary cell. -/
def dfsLoop (sd : SensorData) (goal : Int × Int) :
    Nat → List DriveState → List (List DriveState) → DfsResult
  | 0, _, _ => DfsResult.outOfFuel
  | fuel + 1, visited_states, paths =>
    match select_open_node paths goal with
    | none => DfsResult.noPath
    | some (current_path, rest) =>
      let curr_state := lastState current_path
      if curr_state.x = goal.1 ∧ curr_state.y = goal.2 then
        DfsResult.found current_path
      else
        let visited1 := curr_state :: visited_states
        let children := (list_all_next_possible_states curr_state).filter
          (fun s => !(decide (s ∈ visited1)) && is_state_in_bounds s sd)
        dfsLoop sd goal fuel visited1 (rest ++ children.map (fun s => current_path ++ [s]))

/-- Embeds `dfs_solve_path_to_goal` (src lines 97-118): the worklist starts
as the single one-state path at `SensorData.PLAYER_LOCATION`, the visited set
starts empty. -/
def dfs_solve_path_to_goal (fuel : Nat) (sd : SensorData) (goal : Int × Int) : DfsResult :=
  dfsLoop sd goal fuel []
    [[{ x := sd.player_location.1, y := sd.player_location.2 }]]

/-- The Python exceptions the embedded agent can raise in a tick:
`IndexError` from `self.path[...]`, `ValueError` from `min([])`, and the
explicit advanced-mode `Exception`. -/
inductive PyError where
  | indexError
  | valueError
  | exception
deriving DecidableEq

/-- The mutable per-instance state of the `ArashTarun` agent set up in
`__init__` (src lines 8-21); the dead field `field_limits` (written once,
never read) is omitted. -/
structure ArashTarun where
  game_id : Int
  need_to_find_target_pod : Bool
  path : List DriveState
  path_move_index : Nat
deriving DecidableEq

/-- Embeds `get_move_for_next_state_in_path` (src lines 84-95): read
`path[path_move_index]`, increment the cursor, read the new `path[cursor]`,
and scan the move enumeration for the move sending the first to the second
(falling back to NONE with a WARN). An out-of-range read is `IndexError`. -/
def get_move_for_next_state_in_path (a : ArashTarun) :
    Except PyError ((DriveMove × DriveState) × ArashTarun) :=
  match a.path[a.path_move_index]? with
  | none => Except.error PyError.indexError
  | some current_state =>
    let a1 : ArashTarun :=
      { a with path_move_index := a.path_move_index + 1 }
    match a1.path[a1.path_move_index]? with
    | none => Except.error PyError.indexError
    | some next_state =>
      match DriveMove.all.find?
        (fun m => decide (current_state.get_next_state_from_move m = next_state.to_tuple)) with
      | some move => Except.ok ((move, next_state), a1)
      | none => Except.ok ((DriveMove.NONE, next_state), a1)

/-- Embeds `will_next_state_collide` (src lines 77-82): the next state
coincides with some drive location of the snapshot. -/
def will_next_state_collide (state : DriveState) (sd : SensorData) : Bool :=
  sd.drive_locations.any (fun rob_locs =>
    decide (rob_locs.1 = state.x) && decide (rob_locs.2 = state.y))

/-- Embeds `get_next_move` (src lines 25-75): when the stored plan is empty,
select the closest goal and plan (advanced mode raises); then take the next
move along the plan, undoing the cursor advance and emitting NONE when the
next state collides with another drive. `none` means the planner's loop ran
out of fuel (the Python call has not returned). -/
def get_next_move (fuel : Nat) (a : ArashTarun) (sd : SensorData) :
    Option (Except PyError (DriveMove × ArashTarun)) :=
  let planned : Option (Except PyError ArashTarun) :=
    if a.path.length = 0 then
      if a.need_to_find_target_pod then
        some (Except.error PyError.exception)
      else
        match select_closest_goal sd.goal_locations sd.player_location with
        | none => some (Except.error PyError.valueError)
        | some goal =>
          match dfs_solve_path_to_goal fuel sd goal with
          | DfsResult.found p => some (Except.ok { a with path := p })
          | DfsResult.noPath => some (Except.ok a)
          | DfsResult.outOfFuel => none
    else some (Except.ok a)
  match planned with
  | none => none
  | some (Except.error e) => some (Except.error e)
  | some (Except.ok a1) =>
    match get_move_for_next_state_in_path a1 with
    | Except.error e => some (Except.error e)
    | Except.ok ((next_move, next_state), a2) =>
      if will_next_state_collide next_state sd then
        some (Except.ok (DriveMove.NONE,
          { a2 with path_move_index := a2.path_move_index - 1 }))
      else
        some (Except.ok (next_move, a2))

/-! ### Properties of the first-minimum index -/

theorem argminIdx_lt : ∀ (l : List Int), l ≠ [] → argminIdx l < l.length := by
  intro l
  induction l with
  | nil => intro h; exact absurd rfl h
  | cons v tl ih =>
    intro _
    cases tl with
    | nil => simp [argminIdx]
    | cons w rest =>
      simp only [argminIdx]
      split
      · simp
      · have h1 := ih (by simp)
        simpa using Nat.succ_lt_succ h1

theorem argminIdx_min : ∀ (l : List Int) (j : Nat), j < l.length →
    l.getD (argminIdx l) 0 ≤ l.getD j 0 := by
  intro l
  induction l with
  | nil => intro j hj; simp at hj
  | cons v tl ih =>
    intro j hj
    cases tl with
    | nil =>
      have hj0 : j = 0 := by simpa [Nat.lt_one_iff] using hj
      subst hj0
      simp [argminIdx]
    | cons w rest =>
      simp only [argminIdx]
      split
      · rename_i hle
        cases j with
        | zero => simp
        | succ j =>
          simp only [List.getD_cons_zero, List.getD_cons_succ]
          exact le_trans hle (ih j (by simpa using hj))
      · rename_i hlt
        push_neg at hlt
        cases j with
        | zero => simpa using le_of_lt hlt
        | succ j =>
          simp only [List.getD_cons_succ]
          exact ih j (by simpa using hj)

theorem argminIdx_first : ∀ (l : List Int) (j : Nat), j < argminIdx l →
    l.getD (argminIdx l) 0 < l.getD j 0 := by
  intro l
  induction l with
  | nil => intro j hj; simp [argminIdx] at hj
  | cons v tl ih =>
    intro j hj
    cases tl with
    | nil => simp [argminIdx] at hj
    | cons w rest =>
      simp only [argminIdx] at hj ⊢
      split
      · rename_i hle
        rw [if_pos hle] at hj
        simp at hj
      · rename_i hlt
        rw [if_neg hlt] at hj
        push_neg at hlt
        cases j with
        | zero => simpa using hlt
        | succ j =>
          simp only [List.getD_cons_succ]
          exact ih j (by omega)

theorem getD_map_val {α : Type} (f : α → Int) (l : List α) (i : Nat) (d : α)
    (hi : i < l.length) : (l.map f).getD i 0 = f (l.getD i d) := by
  have hi2 : i < (l.map f).length := by simpa using hi
  rw [List.getD_eq_getElem _ _ hi2, List.getD_eq_getElem _ _ hi]
  simp

/-- What `select_open_node` pops: the path at the first index minimising the
squared distance of the last state to the goal, together with the worklist
with that one occurrence removed. -/
theorem select_open_node_spec (paths : List (List DriveState)) (goal : Int × Int)
    (q : List DriveState) (rest : List (List DriveState))
    (h : select_open_node paths goal = some (q, rest)) :
    ∃ i, i < paths.length ∧ q = paths.getD i [] ∧ rest = paths.eraseIdx i ∧
      (∀ p ∈ paths, nodeDist goal q ≤ nodeDist goal p) ∧
      ∀ j, j < i → nodeDist goal q < nodeDist goal (paths.getD j []) := by
  match paths with
  | [] => simp [select_open_node] at h
  | p0 :: ptl =>
    simp only [select_open_node] at h
    set dists := (p0 :: ptl).map (fun path => nodeDist goal path) with hdists
    set i := argminIdx dists with hi
    obtain ⟨hq, hrest⟩ : (p0 :: ptl).getD i [] = q ∧ (p0 :: ptl).eraseIdx i = rest := by
      constructor <;> · injection h with h2; injection h2
    have hdlen : dists.length = (p0 :: ptl).length := by simp [hdists]
    have hilt : i < (p0 :: ptl).length := by
      rw [← hdlen]; exact argminIdx_lt dists (by simp [hdists])
    refine ⟨i, hilt, hq.symm, hrest.symm, ?_, ?_⟩
    · intro p hp
      obtain ⟨j, hj, hpj⟩ := List.mem_iff_getElem.mp hp
      have h2 := argminIdx_min dists j (by omega)
      rw [hdists, getD_map_val _ _ _ [] hilt, getD_map_val _ _ _ [] hj] at h2
      rw [← hq, ← hpj, ← List.getD_eq_getElem _ [] hj]
      exact h2
    · intro j hj
      have h2 := argminIdx_first dists j hj
      have hjlt : j < (p0 :: ptl).length := by omega
      rw [hdists, getD_map_val _ _ _ [] hilt, getD_map_val _ _ _ [] hjlt] at h2
      rw [← hq]
      exact h2

/-- The analogous fact for `select_closest_goal`: the returned goal is the one
at the first index minimising the squared distance to the current location. -/
theorem select_closest_goal_spec (gl : List (Int × Int)) (c : Int × Int) (h : gl ≠ []) :
    ∃ i, i < gl.length ∧ select_closest_goal gl c = some (gl.getD i (0, 0)) ∧
      (∀ cand ∈ gl, goalDist (gl.getD i (0, 0)) c ≤ goalDist cand c) ∧
      ∀ j, j < i → goalDist (gl.getD i (0, 0)) c < goalDist (gl.getD j (0, 0)) c := by
  match gl with
  | [] => exact absurd rfl h
  | g0 :: gtl =>
    simp only [select_closest_goal]
    set dists := (g0 :: gtl).map (fun goal => goalDist goal c) with hdists
    set i := argminIdx dists with hi
    have hdlen : dists.length = (g0 :: gtl).length := by simp [hdists]
    have hilt : i < (g0 :: gtl).length := by
      rw [← hdlen]; exact argminIdx_lt dists (by simp [hdists])
    refine ⟨i, hilt, rfl, ?_, ?_⟩
    · intro cand hcand
      obtain ⟨j, hj, hcj⟩ := List.mem_iff_getElem.mp hcand
      have h2 := argminIdx_min dists j (by omega)
      rw [hdists, getD_map_val _ _ _ (0, 0) hilt, getD_map_val _ _ _ (0, 0) hj] at h2
      rw [← hcj, ← List.getD_eq_getElem _ (0, 0) hj]
      exact h2
    · intro j hj
      have h2 := argminIdx_first dists j hj
      have hjlt : j < (g0 :: gtl).length := by omega
      rw [hdists, getD_map_val _ _ _ (0, 0) hilt, getD_map_val _ _ _ (0, 0) hjlt] at h2
      exact h2

/-! ### C5, C6, C10: the two selectors -/

/-- C5 counterexample: with two worklist paths whose last states are tied at
the minimum distance to the goal, the search removes the first of the two,
which is not the path at the end of the worklist. -/
theorem select_open_node_tie_pops_front :
    nodeDist (0, 0) [⟨0, 1⟩] = nodeDist (0, 0) [⟨1, 0⟩] ∧
    select_open_node [[⟨0, 1⟩], [⟨1, 0⟩]] (0, 0) = some ([⟨0, 1⟩], [[⟨1, 0⟩]]) ∧
    ([⟨0, 1⟩] : List DriveState) ≠ [⟨1, 0⟩] := by
  refine ⟨by decide, by decide, by decide⟩

/-- C5 (amended): the path removed by `select_open_node` is one whose last
state has minimum Euclidean distance to the goal among all worklist paths;
among equal-minimum paths the one at the earliest worklist position (the
earliest-inserted, since appends go to the end and removals keep order) is
removed, not the one at the end. -/
theorem select_open_node_pops_first_min (paths : List (List DriveState))
    (goal : Int × Int) (q : List DriveState) (rest : List (List DriveState))
    (h : select_open_node paths goal = some (q, rest)) :
    (∀ p ∈ paths, nodeDist goal q ≤ nodeDist goal p) ∧
    ∃ i, i < paths.length ∧ q = paths.getD i [] ∧ rest = paths.eraseIdx i ∧
      ∀ j, j < i → nodeDist goal q < nodeDist goal (paths.getD j []) := by
  obtain ⟨i, h1, h2, h3, h4, h5⟩ := select_open_node_spec paths goal q rest h
  exact ⟨h4, i, h1, h2, h3, h5⟩

/-- C5 witness: on the worklist `[[(5,5)], [(0,0)]]` with goal `(0,0)` the
popped path is the strictly closer `[(0,0)]`, at index 1. -/
theorem select_open_node_pops_first_min_witness :
    (∀ p ∈ ([[⟨5, 5⟩], [⟨0, 0⟩]] : List (List DriveState)),
      nodeDist (0, 0) [⟨0, 0⟩] ≤ nodeDist (0, 0) p) ∧
    ∃ i, i < ([[⟨5, 5⟩], [⟨0, 0⟩]] : List (List DriveState)).length ∧
      ([⟨0, 0⟩] : List DriveState) = ([[⟨5, 5⟩], [⟨0, 0⟩]] : List (List DriveState)).getD i [] ∧
      ([[⟨5, 5⟩]] : List (List DriveState)) = ([[⟨5, 5⟩], [⟨0, 0⟩]] : List (List DriveState)).eraseIdx i ∧
      ∀ j, j < i → nodeDist (0, 0) [⟨0, 0⟩] <
        nodeDist (0, 0) (([[⟨5, 5⟩], [⟨0, 0⟩]] : List (List DriveState)).getD j []) :=
  select_open_node_pops_first_min _ _ _ _ (by decide)

/-- C6: `select_closest_goal` returns the candidate with minimum Euclidean
distance to the current position (compared via squared distances, equivalent
under the strictly monotone square root), ties resolved to the first candidate
in input order; and both concrete examples of the spec hold. -/
theorem select_closest_goal_min_first :
    (∀ (gl : List (Int × Int)) (c : Int × Int), gl ≠ [] →
      ∃ g, select_closest_goal gl c = some g ∧ g ∈ gl ∧
        (∀ cand ∈ gl, goalDist g c ≤ goalDist cand c) ∧
        ∃ i, i < gl.length ∧ g = gl.getD i (0, 0) ∧
          ∀ j, j < i → goalDist g c < goalDist (gl.getD j (0, 0)) c) ∧
    select_closest_goal [(0, 0), (10, 10)] (1, 0) = some (0, 0) ∧
    select_closest_goal [(0, 1), (1, 0)] (0, 0) = some (0, 1) := by
  refine ⟨?_, by decide, by decide⟩
  intro gl c h
  obtain ⟨i, h1, h2, h3, h4⟩ := select_closest_goal_spec gl c h
  refine ⟨gl.getD i (0, 0), h2, ?_, h3, i, h1, rfl, h4⟩
  rw [List.getD_eq_getElem _ _ h1]
  exact List.getElem_mem h1

/-- C6 witness: the general clause applied to the spec's first example. -/
theorem select_closest_goal_min_first_witness :
    (([(0, 0), (10, 10)] : List (Int × Int)) ≠ []) ∧
    ∃ g, select_closest_goal [(0, 0), (10, 10)] (1, 0) = some g ∧
      g ∈ ([(0, 0), (10, 10)] : List (Int × Int)) ∧
      (∀ cand ∈ ([(0, 0), (10, 10)] : List (Int × Int)),
        goalDist g (1, 0) ≤ goalDist cand (1, 0)) ∧
      ∃ i, i < ([(0, 0), (10, 10)] : List (Int × Int)).length ∧
        g = ([(0, 0), (10, 10)] : List (Int × Int)).getD i (0, 0) ∧
        ∀ j, j < i → goalDist g (1, 0) <
          goalDist (([(0, 0), (10, 10)] : List (Int × Int)).getD j (0, 0)) (1, 0) :=
  ⟨by decide, select_closest_goal_min_first.1 [(0, 0), (10, 10)] (1, 0) (by decide)⟩

/-- C10: `select_closest_goal` on the empty goal list hits Python's `min` of
an empty sequence (a `ValueError`, embedded as `none`); on every nonempty
goal list it returns without error and the result is an element of the
input list. -/
theorem select_closest_goal_empty_errs_nonempty_total :
    (∀ c : Int × Int, select_closest_goal [] c = none) ∧
    (∀ (gl : List (Int × Int)) (c : Int × Int), gl ≠ [] →
      ∃ g, select_closest_goal gl c = some g ∧ g ∈ gl) := by
  refine ⟨fun c => rfl, ?_⟩
  intro gl c h
  obtain ⟨i, h1, h2, _, _⟩ := select_closest_goal_spec gl c h
  refine ⟨gl.getD i (0, 0), h2, ?_⟩
  rw [List.getD_eq_getElem _ _ h1]
  exact List.getElem_mem h1

/-- C10 witness: the nonempty clause applied to a one-goal list. -/
theorem select_closest_goal_empty_errs_nonempty_total_witness :
    (([(3, 4)] : List (Int × Int)) ≠ []) ∧
    ∃ g, select_closest_goal [(3, 4)] (0, 0) = some g ∧ g ∈ ([(3, 4)] : List (Int × Int)) :=
  ⟨by decide, select_closest_goal_empty_errs_nonempty_total.2 [(3, 4)] (0, 0) (by decide)⟩

/-! ### C2, C3, C4: the executor -/

/-- A snapshot whose player cell `(0,0)` is fully enclosed by the four
boundary cells around it, with the goal elsewhere: planning must fail. -/
def sdEnclosed : SensorData :=
  { field_boundaries := [(1, 0), (-1, 0), (0, 1), (0, -1)]
    drive_locations := []
    player_location := (0, 0)
    goal_locations := [(2, 2)] }

/-- An open snapshot (no boundaries, no other drives) with the single goal
one step to the right of the player. -/
def sdOpenGoal : SensorData :=
  { field_boundaries := []
    drive_locations := []
    player_location := (0, 0)
    goal_locations := [(1, 0)] }

/-- The agent exactly as constructed by `__init__` for basic mode
(src lines 8-21). -/
def freshAgent : ArashTarun :=
  { game_id := 0, need_to_find_target_pod := false, path := [], path_move_index := 0 }

/-- C2 (the failing input): with the player enclosed, the planner exhausts
its two-iteration worklist and fails, leaving the plan empty; on that same
tick `get_next_move` then evaluates `self.path[0]` on the empty plan and
raises `IndexError` instead of returning `DriveMove.NONE`. -/
theorem failed_planning_raises_index_error :
    dfs_solve_path_to_goal 2 sdEnclosed (2, 2) = DfsResult.noPath ∧
    get_next_move 2 freshAgent sdEnclosed = some (Except.error PyError.indexError) := by
  constructor <;> rfl

/-- C3 counterexample: the first tick plans `[(0,0), (1,0)]` and consumes the
single step, leaving the cursor at the end of the plan; the very next call
does not perform goal selection and replanning (the plan list is nonempty, so
the replanning branch is skipped) and raises `IndexError` instead of
emitting a move. -/
theorem exhausted_plan_raises_instead_of_replanning :
    get_next_move 2 freshAgent sdOpenGoal =
      some (Except.ok (DriveMove.RIGHT,
        { game_id := 0, need_to_find_target_pod := false,
          path := [⟨0, 0⟩, ⟨1, 0⟩], path_move_index := 1 })) ∧
    get_next_move 2
      { game_id := 0, need_to_find_target_pod := false,
        path := [⟨0, 0⟩, ⟨1, 0⟩], path_move_index := 1 } sdOpenGoal =
      some (Except.error PyError.indexError) := by
  constructor <;> rfl

/-- C3 (amended): once the cursor has reached the end of a nonempty plan, the
next call to `get_next_move` raises `IndexError` rather than re-entering the
NoPlan state: goal selection and replanning are triggered only by an empty
plan list, and a consumed plan is never cleared. -/
theorem exhausted_plan_index_error (fuel : Nat) (a : ArashTarun) (sd : SensorData)
    (hne : a.path ≠ []) (hend : a.path.length ≤ a.path_move_index + 1) :
    get_next_move fuel a sd = some (Except.error PyError.indexError) := by
  have hlen : ¬ a.path.length = 0 := by simpa [List.length_eq_zero] using hne
  have herr : get_move_for_next_state_in_path a = Except.error PyError.indexError := by
    by_cases hidx : a.path_move_index < a.path.length
    · have h2 : a.path[a.path_move_index]? = some a.path[a.path_move_index] :=
        List.getElem?_eq_getElem hidx
      have h3 : a.path[a.path_move_index + 1]? = none :=
        List.getElem?_eq_none (by omega)
      simp only [get_move_for_next_state_in_path, h2, h3]
    · have h2 : a.path[a.path_move_index]? = none := List.getElem?_eq_none (by omega)
      simp only [get_move_for_next_state_in_path, h2]
  simp only [get_next_move, if_neg hlen, herr]

/-- C3 witness for the amended statement: the exhausted two-state plan. -/
theorem exhausted_plan_index_error_witness :
    (([⟨0, 0⟩, ⟨1, 0⟩] : List DriveState) ≠ []) ∧
    (([⟨0, 0⟩, ⟨1, 0⟩] : List DriveState).length ≤ 1 + 1) ∧
    get_next_move 0
      { game_id := 0, need_to_find_target_pod := false,
        path := [⟨0, 0⟩, ⟨1, 0⟩], path_move_index := 1 } sdOpenGoal =
      some (Except.error PyError.indexError) :=
  ⟨by decide, by decide,
    exhausted_plan_index_error 0 _ sdOpenGoal (by decide) (by decide)⟩

theorem mem_DriveMove_all (m : DriveMove) : m ∈ DriveMove.all := by
  cases m <;> simp [DriveMove.all]

theorem get_next_state_from_move_inj (s : DriveState) (m1 m2 : DriveMove)
    (h : s.get_next_state_from_move m1 = s.get_next_state_from_move m2) : m1 = m2 := by
  cases m1 <;> cases m2 <;>
    simp_all [DriveState.get_next_state_from_move, Prod.ext_iff] <;> omega

/-- C4: with an active plan (both `plan[cursor]` and `plan[cursor+1]` exist)
whose next state is reached from the current state by the move `mv`: if the
next state coincides with any drive location of the snapshot, `get_next_move`
emits NONE and leaves the agent (plan and cursor) unchanged — so a later call
with the obstacle gone emits the originally intended move — and without a
coincidence it emits `mv` and advances the cursor by one. -/
theorem collision_guard_none_and_restore (fuel : Nat) (a : ArashTarun) (sd : SensorData)
    (cur nxt : DriveState) (mv : DriveMove)
    (hne : a.path ≠ [])
    (hcur : a.path[a.path_move_index]? = some cur)
    (hnxt : a.path[a.path_move_index + 1]? = some nxt)
    (hmv : cur.get_next_state_from_move mv = nxt.to_tuple) :
    (will_next_state_collide nxt sd = true →
      get_next_move fuel a sd = some (Except.ok (DriveMove.NONE, a))) ∧
    (will_next_state_collide nxt sd = false →
      get_next_move fuel a sd = some (Except.ok (mv,
        { a with path_move_index := a.path_move_index + 1 }))) := by
  have hlen : ¬ a.path.length = 0 := by simpa [List.length_eq_zero] using hne
  have hfind : DriveMove.all.find?
      (fun m => decide (cur.get_next_state_from_move m = nxt.to_tuple)) = some mv := by
    cases hf : DriveMove.all.find?
        (fun m => decide (cur.get_next_state_from_move m = nxt.to_tuple)) with
    | none =>
      have h2 := List.find?_eq_none.mp hf mv (mem_DriveMove_all mv)
      simp [hmv] at h2
    | some m2 =>
      have h2 := List.find?_some hf
      have h3 : cur.get_next_state_from_move m2 = nxt.to_tuple := by simpa using h2
      exact congrArg some (get_next_state_from_move_inj cur m2 mv (by rw [h3, hmv]))
  have hmove : get_move_for_next_state_in_path a =
      Except.ok ((mv, nxt), { a with path_move_index := a.path_move_index + 1 }) := by
    simp only [get_move_for_next_state_in_path, hcur, hnxt, hfind]
  constructor
  · intro hcol
    simp only [get_next_move, if_neg hlen, hmove, hcol, if_pos, Nat.add_sub_cancel]
  · intro hcol
    simp only [get_next_move, if_neg hlen, hmove, hcol, Bool.false_eq_true, if_false]

/-- The agent of the spec's collision-guard example: current state `(2,2)`,
next planned state `(2,3)`. -/
def guardAgent : ArashTarun :=
  { game_id := 0, need_to_find_target_pod := false,
    path := [⟨2, 2⟩, ⟨2, 3⟩], path_move_index := 0 }

/-- Snapshot with another drive parked on the next planned state `(2,3)`. -/
def sdBlockedNext : SensorData :=
  { field_boundaries := [], drive_locations := [(2, 3)],
    player_location := (2, 2), goal_locations := [(2, 3)] }

/-- The same snapshot with the obstacle removed. -/
def sdFreeNext : SensorData :=
  { field_boundaries := [], drive_locations := [],
    player_location := (2, 2), goal_locations := [(2, 3)] }

/-- C4 witness: with a drive at `(2,3)` the agent emits NONE and is
unchanged; with the obstacle removed the same agent emits the originally
intended move UP and advances the cursor. -/
theorem collision_guard_none_and_restore_witness :
    get_next_move 1 guardAgent sdBlockedNext = some (Except.ok (DriveMove.NONE, guardAgent)) ∧
    get_next_move 1 guardAgent sdFreeNext =
      some (Except.ok (DriveMove.UP, { guardAgent with path_move_index := 1 })) :=
  ⟨(collision_guard_none_and_restore 1 guardAgent sdBlockedNext ⟨2, 2⟩ ⟨2, 3⟩
      DriveMove.UP (by decide) rfl rfl rfl).1 rfl,
   (collision_guard_none_and_restore 1 guardAgent sdFreeNext ⟨2, 2⟩ ⟨2, 3⟩
      DriveMove.UP (by decide) rfl rfl rfl).2 rfl⟩

/-! ### Worklist-path invariants of the planner -/

/-- Two states are connected by the delta of one move of the enumeration. -/
def IsMoveStep (a b : DriveState) : Prop :=
  ∃ m ∈ DriveMove.all, a.get_next_state_from_move m = b.to_tuple

/-- Two states are connected by one of the four unit moves (not NONE). -/
def IsUnitMoveStep (a b : DriveState) : Prop :=
  ∃ m ∈ [DriveMove.UP, DriveMove.DOWN, DriveMove.LEFT, DriveMove.RIGHT],
    a.get_next_state_from_move m = b.to_tuple

theorem isMoveStep_iff (a b : DriveState) :
    IsMoveStep a b ↔ (b = ⟨a.x, a.y⟩ ∨ b = ⟨a.x, a.y + 1⟩ ∨ b = ⟨a.x, a.y - 1⟩ ∨
      b = ⟨a.x - 1, a.y⟩ ∨ b = ⟨a.x + 1, a.y⟩) := by
  constructor
  · rintro ⟨m, _, hm⟩
    cases b
    cases m <;>
      simp_all [DriveState.get_next_state_from_move, DriveState.to_tuple,
        Prod.ext_iff, DriveState.mk.injEq]
  · intro h
    rcases h with h | h | h | h | h <;> subst h
    · exact ⟨DriveMove.NONE, by decide, rfl⟩
    · exact ⟨DriveMove.UP, by decide, rfl⟩
    · exact ⟨DriveMove.DOWN, by decide, rfl⟩
    · exact ⟨DriveMove.LEFT, by decide, rfl⟩
    · exact ⟨DriveMove.RIGHT, by decide, rfl⟩

theorem list_all_next_possible_states_eq (a : DriveState) :
    list_all_next_possible_states a =
      [⟨a.x + 1, a.y⟩, ⟨a.x - 1, a.y⟩, ⟨a.x, a.y - 1⟩, ⟨a.x, a.y + 1⟩, ⟨a.x, a.y⟩] := rfl

theorem mem_list_all_iff (a b : DriveState) :
    b ∈ list_all_next_possible_states a ↔ IsMoveStep a b := by
  rw [list_all_next_possible_states_eq, isMoveStep_iff]
  simp only [List.mem_cons, List.not_mem_nil, or_false]
  tauto

theorem lastState_cons_cons (a b : DriveState) (l : List DriveState) :
    lastState (a :: b :: l) = lastState (b :: l) := rfl

theorem lastState_append_single (p : List DriveState) (s : DriveState) :
    lastState (p ++ [s]) = s := by
  induction p with
  | nil => rfl
  | cons a tl ih =>
    cases tl with
    | nil => rfl
    | cons b tl2 =>
      rw [List.cons_append, List.cons_append, lastState_cons_cons]
      exact ih

theorem lastState_mem (p : List DriveState) (h : p ≠ []) : lastState p ∈ p := by
  induction p with
  | nil => exact absurd rfl h
  | cons a tl ih =>
    cases tl with
    | nil => simp [lastState]
    | cons b tl2 =>
      rw [lastState_cons_cons]
      exact List.mem_cons_of_mem a (ih (by simp))

theorem getLast?_eq_lastState (p : List DriveState) (h : p ≠ []) :
    p.getLast? = some (lastState p) := by
  induction p with
  | nil => exact absurd rfl h
  | cons a tl ih =>
    cases tl with
    | nil => rfl
    | cons b tl2 =>
      rw [lastState_cons_cons, List.getLast?_cons_cons]
      exact ih (by simp)

theorem mem_eq_lastState_or_dropLast (p : List DriveState) (t : DriveState)
    (h : t ∈ p) : t = lastState p ∨ t ∈ p.dropLast := by
  have hne : p ≠ [] := by rintro rfl; simp at h
  have hsplit := List.dropLast_append_getLast hne
  rw [← hsplit] at h
  rcases List.mem_append.mp h with h1 | h1
  · right; exact h1
  · left
    have h2 : p.getLast? = some (p.getLast hne) := List.getLast?_eq_getLast p hne
    rw [getLast?_eq_lastState p hne] at h2
    have h3 : lastState p = p.getLast hne := by injection h2
    simp only [List.mem_singleton] at h1
    rw [h1, h3]

theorem dfsLoop_succ_none (sd : SensorData) (goal : Int × Int) (n : Nat)
    (V : List DriveState) (W : List (List DriveState))
    (hsel : select_open_node W goal = none) :
    dfsLoop sd goal (n + 1) V W = DfsResult.noPath := by
  rw [dfsLoop, hsel]

theorem dfsLoop_succ_some (sd : SensorData) (goal : Int × Int) (n : Nat)
    (V : List DriveState) (W : List (List DriveState))
    (q : List DriveState) (rest : List (List DriveState))
    (hsel : select_open_node W goal = some (q, rest)) :
    dfsLoop sd goal (n + 1) V W =
      if (lastState q).x = goal.1 ∧ (lastState q).y = goal.2 then DfsResult.found q
      else
        dfsLoop sd goal n (lastState q :: V)
          (rest ++ ((list_all_next_possible_states (lastState q)).filter
            (fun s => !(decide (s ∈ lastState q :: V)) && is_state_in_bounds s sd)).map
            (fun s => q ++ [s])) := by
  rw [dfsLoop, hsel]

/-- Invariant of every path in the planner's worklist: nonempty, starts at
the start state, consecutive states connected by one move, every state after
the head in bounds, no repeated state, and every state before the last
already visited. -/
def GoodPath (sd : SensorData) (start : DriveState) (V : List DriveState)
    (p : List DriveState) : Prop :=
  p ≠ [] ∧ p.head? = some start ∧ List.Chain' IsMoveStep p ∧
    (∀ s ∈ p.tail, is_state_in_bounds s sd = true) ∧ p.Nodup ∧
    ∀ s ∈ p.dropLast, s ∈ V

theorem goodPath_mono (sd : SensorData) (start : DriveState) (V V' : List DriveState)
    (p : List DriveState) (hV : ∀ v ∈ V, v ∈ V') (hp : GoodPath sd start V p) :
    GoodPath sd start V' p :=
  ⟨hp.1, hp.2.1, hp.2.2.1, hp.2.2.2.1, hp.2.2.2.2.1,
    fun s hs => hV s (hp.2.2.2.2.2 s hs)⟩

theorem goodPath_subset_visited (sd : SensorData) (start : DriveState)
    (V : List DriveState) (p : List DriveState) (hp : GoodPath sd start V p) :
    ∀ t ∈ p, t ∈ lastState p :: V := by
  intro t ht
  rcases mem_eq_lastState_or_dropLast p t ht with h | h
  · rw [h]; exact List.mem_cons_self _ _
  · exact List.mem_cons_of_mem _ (hp.2.2.2.2.2 t h)

theorem goodPath_child (sd : SensorData) (start : DriveState) (V : List DriveState)
    (q : List DriveState) (s : DriveState) (hq : GoodPath sd start V q)
    (hstep : IsMoveStep (lastState q) s)
    (hfree : is_state_in_bounds s sd = true)
    (hnv : s ∉ lastState q :: V) :
    GoodPath sd start (lastState q :: V) (q ++ [s]) := by
  obtain ⟨h1, h2, h3, h4, h5, h6⟩ := hq
  have hsq : s ∉ q := fun hmem =>
    hnv (goodPath_subset_visited sd start V q ⟨h1, h2, h3, h4, h5, h6⟩ s hmem)
  refine ⟨by simp, ?_, ?_, ?_, ?_, ?_⟩
  · cases q with
    | nil => exact absurd rfl h1
    | cons a tl => simpa using h2
  · rw [List.chain'_append]
    refine ⟨h3, List.chain'_singleton s, ?_⟩
    intro x hx y hy
    simp only [List.head?_cons, Option.mem_def, Option.some.injEq] at hy
    rw [getLast?_eq_lastState q h1] at hx
    simp only [Option.mem_def, Option.some.injEq] at hx
    rw [← hx, ← hy]
    exact hstep
  · cases q with
    | nil => exact absurd rfl h1
    | cons a tl =>
      intro t ht
      rw [List.cons_append, List.tail_cons] at ht
      rcases List.mem_append.mp ht with h | h
      · exact h4 t h
      · simp only [List.mem_singleton] at h
        rw [h]
        exact hfree
  · rw [List.nodup_append]
    refine ⟨h5, List.nodup_singleton s, ?_⟩
    intro a ha hb
    simp only [List.mem_singleton] at hb
    rw [hb] at ha
    exact hsq ha
  · rw [List.dropLast_concat]
    exact goodPath_subset_visited sd start V q ⟨h1, h2, h3, h4, h5, h6⟩

/-- What the planner guarantees about every plan it returns. -/
def SolvedPlan (sd : SensorData) (start : DriveState) (goal : Int × Int)
    (p : List DriveState) : Prop :=
  p ≠ [] ∧ p.head? = some start ∧ List.Chain' IsMoveStep p ∧
    (∀ s ∈ p.tail, is_state_in_bounds s sd = true) ∧ p.Nodup ∧
    lastState p = ⟨goal.1, goal.2⟩

/-- Soundness of the worklist loop: under the worklist invariant, a returned
plan is a solved plan. -/
theorem dfsLoop_found_sound (sd : SensorData) (goal : Int × Int) (start : DriveState) :
    ∀ (fuel : Nat) (V : List DriveState) (W : List (List DriveState)),
      (∀ q ∈ W, GoodPath sd start V q) →
      ∀ p, dfsLoop sd goal fuel V W = DfsResult.found p →
        SolvedPlan sd start goal p := by
  intro fuel
  induction fuel with
  | zero => intro V W _ p h; simp [dfsLoop] at h
  | succ n ih =>
    intro V W hW p h
    cases hsel : select_open_node W goal with
    | none => rw [dfsLoop_succ_none sd goal n V W hsel] at h; simp at h
    | some qr =>
      obtain ⟨q, rest⟩ := qr
      rw [dfsLoop_succ_some sd goal n V W q rest hsel] at h
      obtain ⟨i, hi, hq, hrest, _, _⟩ := select_open_node_spec W goal q rest hsel
      have hqW : q ∈ W := by
        rw [hq, List.getD_eq_getElem _ _ hi]; exact List.getElem_mem hi
      have hgq := hW q hqW
      by_cases hgoal : (lastState q).x = goal.1 ∧ (lastState q).y = goal.2
      · rw [if_pos hgoal] at h
        injection h with h
        subst h
        refine ⟨hgq.1, hgq.2.1, hgq.2.2.1, hgq.2.2.2.1, hgq.2.2.2.2.1, ?_⟩
        have hxy : lastState q = ⟨(lastState q).x, (lastState q).y⟩ := rfl
        rw [hxy, hgoal.1, hgoal.2]
      · rw [if_neg hgoal] at h
        refine ih _ _ ?_ p h
        intro r hr
        rcases List.mem_append.mp hr with h1 | h1
        · refine goodPath_mono sd start V _ r
            (fun v hv => List.mem_cons_of_mem _ hv) (hW r ?_)
          rw [hrest] at h1
          exact List.eraseIdx_subset W i h1
        · obtain ⟨s, hs, rfl⟩ := List.mem_map.mp h1
          have hs2 := List.mem_filter.mp hs
          have hstep : IsMoveStep (lastState q) s := (mem_list_all_iff _ _).mp hs2.1
          have hcond := hs2.2
          rw [Bool.and_eq_true, Bool.not_eq_true', decide_eq_false_iff_not] at hcond
          exact goodPath_child sd start V q s hgq hstep hcond.2 hcond.1

theorem goodPath_init (sd : SensorData) (start : DriveState) :
    GoodPath sd start [] [start] :=
  ⟨by simp, rfl, List.chain'_singleton start, by simp, List.nodup_singleton start, by simp⟩

/-- Soundness of the top-level planner call: a returned plan is a solved plan
from the snapshot's player location. -/
theorem dfs_found_solvedPlan (sd : SensorData) (goal : Int × Int) (fuel : Nat)
    (p : List DriveState) (h : dfs_solve_path_to_goal fuel sd goal = DfsResult.found p) :
    SolvedPlan sd ⟨sd.player_location.1, sd.player_location.2⟩ goal p := by
  refine dfsLoop_found_sound sd goal _ fuel [] _ ?_ p h
  intro q hq
  simp only [List.mem_singleton] at hq
  rw [hq]
  exact goodPath_init sd _

/-- C8: every state of a plan returned by the planner except possibly the
start state is in bounds (not a field-boundary cell), and no state of the
plan repeats: the loop only ever appends successor states that are neither
visited nor blocked. -/
theorem planner_plan_avoids_blocked (sd : SensorData) (goal : Int × Int) (fuel : Nat)
    (p : List DriveState) (h : dfs_solve_path_to_goal fuel sd goal = DfsResult.found p) :
    (∀ s ∈ p.tail, is_state_in_bounds s sd = true) ∧ p.Nodup := by
  have hs := dfs_found_solvedPlan sd goal fuel p h
  exact ⟨hs.2.2.2.1, hs.2.2.2.2.1⟩

/-- A snapshot with one boundary cell directly above the player. -/
def sdWallAbove : SensorData :=
  { field_boundaries := [(0, 1)], drive_locations := [],
    player_location := (0, 0), goal_locations := [(1, 0)] }

/-- C8 witness: the plan found next to a wall keeps off the wall cell. -/
theorem planner_plan_avoids_blocked_witness :
    (∀ s ∈ ([⟨0, 0⟩, ⟨1, 0⟩] : List DriveState).tail,
      is_state_in_bounds s sdWallAbove = true) ∧
    ([⟨0, 0⟩, ⟨1, 0⟩] : List DriveState).Nodup :=
  planner_plan_avoids_blocked sdWallAbove (1, 0) 2 [⟨0, 0⟩, ⟨1, 0⟩] (by rfl)

theorem chain'_and (R S : DriveState → DriveState → Prop) :
    ∀ (l : List DriveState), List.Chain' R l → List.Chain' S l →
      List.Chain' (fun a b => R a b ∧ S a b) l := by
  intro l
  induction l with
  | nil => intro _ _; exact List.chain'_nil
  | cons a tl ih =>
    intro hR hS
    cases tl with
    | nil => exact List.chain'_singleton a
    | cons b tl2 =>
      rw [List.chain'_cons] at hR hS ⊢
      exact ⟨⟨hR.1, hS.1⟩, ih hR.2 hS.2⟩

theorem isUnitMoveStep_of_ne (a b : DriveState) (hne : a ≠ b) (h : IsMoveStep a b) :
    IsUnitMoveStep a b := by
  obtain ⟨m, hm, hstep⟩ := h
  cases m with
  | NONE =>
    exfalso
    apply hne
    cases a; cases b
    simp only [DriveState.get_next_state_from_move, DriveState.to_tuple,
      Prod.mk.injEq] at hstep
    simp [hstep.1, hstep.2]
  | UP => exact ⟨DriveMove.UP, by decide, hstep⟩
  | DOWN => exact ⟨DriveMove.DOWN, by decide, hstep⟩
  | LEFT => exact ⟨DriveMove.LEFT, by decide, hstep⟩
  | RIGHT => exact ⟨DriveMove.RIGHT, by decide, hstep⟩

/-- C9: a plan returned by the planner never has two consecutive equal
states: every consecutive pair is connected by one of the four unit moves
(never the NONE delta), because the expanded path's last state is marked
visited before its successors are generated, which filters out the
same-coordinate NONE successor. -/
theorem planner_plan_steps_are_unit_moves (sd : SensorData) (goal : Int × Int)
    (fuel : Nat) (p : List DriveState)
    (h : dfs_solve_path_to_goal fuel sd goal = DfsResult.found p) :
    List.Chain' (fun a b => a ≠ b ∧ IsUnitMoveStep a b) p := by
  have hs := dfs_found_solvedPlan sd goal fuel p h
  have hne : List.Chain' (fun a b : DriveState => a ≠ b) p :=
    List.Pairwise.chain' hs.2.2.2.2.1
  exact List.Chain'.imp
    (fun a b hab => ⟨hab.1, isUnitMoveStep_of_ne a b hab.1 hab.2⟩)
    (chain'_and _ _ p hne hs.2.2.1)

/-- C9 witness: the one-step plan to the right consists of one unit move. -/
theorem planner_plan_steps_are_unit_moves_witness :
    List.Chain' (fun a b => a ≠ b ∧ IsUnitMoveStep a b)
      ([⟨0, 0⟩, ⟨1, 0⟩] : List DriveState) :=
  planner_plan_steps_are_unit_moves sdOpenGoal (1, 0) 2 [⟨0, 0⟩, ⟨1, 0⟩] (by rfl)

/-! ### Termination measure for the worklist loop on a bounded grid -/

/-- All states of a path lie in the closure set `T`. -/
def TPath (T : Finset DriveState) (p : List DriveState) : Prop := ∀ s ∈ p, s ∈ T

theorem nodup_subset_card (T : Finset DriveState) (p : List DriveState)
    (hnd : p.Nodup) (hsub : TPath T p) : p.length ≤ T.card := by
  rw [← List.toFinset_card_of_nodup hnd]
  apply Finset.card_le_card
  intro s hs
  rw [List.mem_toFinset] at hs
  exact hsub s hs

/-- Worklist measure: each path of length `k` weighs `6 ^ (c - k)`; popping a
path and pushing at most five strictly longer children strictly decreases the
total. -/
def wMeasure (c : Nat) (W : List (List DriveState)) : Nat :=
  (W.map (fun p => 6 ^ (c - p.length))).sum

theorem wMeasure_append (c : Nat) (A B : List (List DriveState)) :
    wMeasure c (A ++ B) = wMeasure c A + wMeasure c B := by
  simp [wMeasure]

theorem wMeasure_cons (c : Nat) (p : List DriveState) (W : List (List DriveState)) :
    wMeasure c (p :: W) = 6 ^ (c - p.length) + wMeasure c W := by
  simp [wMeasure]

theorem wMeasure_children (c : Nat) (q : List DriveState) (children : List DriveState) :
    wMeasure c (children.map (fun s => q ++ [s])) =
      children.length * 6 ^ (c - (q.length + 1)) := by
  induction children with
  | nil => simp [wMeasure]
  | cons s tl ih =>
    have hlen : (q ++ [s]).length = q.length + 1 := by simp
    rw [List.map_cons, wMeasure_cons, ih, hlen]
    simp only [List.length_cons]
    ring

theorem exists_split_at (W : List (List DriveState)) (i : Nat) (hi : i < W.length) :
    W = W.take i ++ W.getD i [] :: W.drop (i + 1) := by
  rw [List.getD_eq_getElem _ _ hi, ← List.drop_eq_getElem_cons hi, List.take_append_drop]

theorem wMeasure_step_lt (c : Nat) (W : List (List DriveState)) (i : Nat)
    (hi : i < W.length) (q : List DriveState) (rest : List (List DriveState))
    (hqi : q = W.getD i []) (hresti : rest = W.eraseIdx i)
    (children : List DriveState)
    (hch5 : children.length ≤ 5)
    (hchlen : ∀ s ∈ children, q.length + 1 ≤ c) :
    wMeasure c (rest ++ children.map (fun s => q ++ [s])) < wMeasure c W := by
  have hsplit := exists_split_at W i hi
  rw [hresti, List.eraseIdx_eq_take_drop_succ, wMeasure_append, wMeasure_append,
    wMeasure_children]
  conv_rhs => rw [hsplit]
  rw [wMeasure_append, wMeasure_cons, ← hqi]
  have hmain : children.length * 6 ^ (c - (q.length + 1)) < 6 ^ (c - q.length) := by
    cases hc : children with
    | nil =>
      simp only [List.length_nil, Nat.zero_mul]
      exact pow_pos (by omega) _
    | cons s tl =>
      have h1 : q.length + 1 ≤ c := hchlen s (by rw [hc]; exact List.mem_cons_self s tl)
      have h2 : c - q.length = (c - (q.length + 1)) + 1 := by omega
      have hx : 0 < 6 ^ (c - (q.length + 1)) := pow_pos (by omega) _
      rw [h2, pow_succ]
      rw [← hc]
      nlinarith [hch5, hx]
  omega

/-! ### Routes avoiding the visited set (reachability for the planner) -/

theorem lastState_cons_ne (a : DriveState) (L : List DriveState) (h : L ≠ []) :
    lastState (a :: L) = lastState L := by
  cases L with
  | nil => exact absurd rfl h
  | cons b tl => rfl

theorem lastState_append (p r : List DriveState) (h : r ≠ []) :
    lastState (p ++ r) = lastState r := by
  induction p with
  | nil => rfl
  | cons a tl ih =>
    rw [List.cons_append,
      lastState_cons_ne a (tl ++ r) (fun hx => h (List.append_eq_nil.mp hx).2), ih]

/-- A route witnessing that `g` is reachable from `u` through in-bounds
cells, none of which (after `u` itself) lies in `V`; `l` is the list of
cells visited after `u`. -/
def IsRoute (sd : SensorData) (V : List DriveState) (u : DriveState)
    (l : List DriveState) (g : DriveState) : Prop :=
  List.Chain' IsMoveStep (u :: l) ∧ lastState (u :: l) = g ∧
    ∀ w ∈ l, is_state_in_bounds w sd = true ∧ w ∉ V

/-- Reachability of `g` from `u` through in-bounds cells avoiding `V`. -/
def ReachAvoiding (sd : SensorData) (V : List DriveState) (u g : DriveState) : Prop :=
  ∃ l, IsRoute sd V u l g

theorem isRoute_suffix (sd : SensorData) (V : List DriveState) (u : DriveState)
    (l : List DriveState) (g c : DriveState) (hr : IsRoute sd V u l g) (hc : c ∈ l) :
    ∃ l2, l2.length < l.length ∧ IsRoute sd V c l2 g := by
  obtain ⟨l1, l2, rfl⟩ := List.append_of_mem hc
  obtain ⟨hchain, hlast, hmem⟩ := hr
  have hform : u :: (l1 ++ c :: l2) = (u :: l1) ++ (c :: l2) := by simp
  rw [hform] at hchain hlast
  refine ⟨l2, by simp only [List.length_append, List.length_cons]; omega, ?_, ?_, ?_⟩
  · exact (List.chain'_append.mp hchain).2.1
  · rw [lastState_append (u :: l1) (c :: l2) (by simp)] at hlast
    exact hlast
  · intro w hw
    exact hmem w (by simp [hw])

theorem isRoute_avoid_cons (sd : SensorData) (V : List DriveState) (u : DriveState)
    (l : List DriveState) (g c : DriveState) (hr : IsRoute sd V u l g) (hc : c ∉ l) :
    IsRoute sd (c :: V) u l g := by
  refine ⟨hr.1, hr.2.1, ?_⟩
  intro w hw
  refine ⟨(hr.2.2 w hw).1, ?_⟩
  simp only [List.mem_cons]
  push_neg
  exact ⟨fun hwc => hc (hwc ▸ hw), (hr.2.2 w hw).2⟩

theorem reachAvoiding_expand_aux (sd : SensorData) (V : List DriveState)
    (u g : DriveState) :
    ∀ (n : Nat) (l : List DriveState), l.length ≤ n → IsRoute sd V u l g →
      u = g ∨ ∃ w, IsMoveStep u w ∧ is_state_in_bounds w sd = true ∧
        w ∉ (u :: V) ∧ ReachAvoiding sd (u :: V) w g := by
  intro n
  induction n with
  | zero =>
    intro l hlen hr
    have hl : l = [] := List.length_eq_zero.mp (by omega)
    subst hl
    left
    exact hr.2.1
  | succ n ih =>
    intro l hlen hr
    cases l with
    | nil => left; exact hr.2.1
    | cons w rest =>
      by_cases hu : u ∈ w :: rest
      · obtain ⟨l2, hl2len, hl2⟩ := isRoute_suffix sd V u (w :: rest) g u hr hu
        refine ih l2 ?_ hl2
        simp only [List.length_cons] at hl2len hlen
        omega
      · obtain ⟨hchain, hlast, hmem⟩ := hr
        rw [List.chain'_cons] at hchain
        have hw := hmem w (by simp)
        right
        refine ⟨w, hchain.1, hw.1, ?_, rest, hchain.2, hlast, ?_⟩
        · simp only [List.mem_cons]
          push_neg
          exact ⟨fun hwu => hu (by rw [hwu]; exact List.mem_cons_self u rest), hw.2⟩
        · intro v hv
          have h2 := hmem v (List.mem_cons_of_mem w hv)
          refine ⟨h2.1, ?_⟩
          simp only [List.mem_cons]
          push_neg
          exact ⟨fun hvu => hu (by rw [← hvu]; exact List.mem_cons_of_mem w hv), h2.2⟩

theorem reachAvoiding_expand (sd : SensorData) (V : List DriveState) (u g : DriveState)
    (h : ReachAvoiding sd V u g) :
    u = g ∨ ∃ w, IsMoveStep u w ∧ is_state_in_bounds w sd = true ∧
      w ∉ (u :: V) ∧ ReachAvoiding sd (u :: V) w g := by
  obtain ⟨l, hl⟩ := h
  exact reachAvoiding_expand_aux sd V u g l.length l le_rfl hl

/-- Every worklist member either is the popped path or survives the pop. -/
theorem pop_survives (W : List (List DriveState)) (goal : Int × Int)
    (q : List DriveState) (rest : List (List DriveState))
    (hsel : select_open_node W goal = some (q, rest)) :
    ∀ p ∈ W, p = q ∨ p ∈ rest := by
  obtain ⟨i, hi, hqi, hresti, _, _⟩ := select_open_node_spec W goal q rest hsel
  intro p hp
  have hsplit := exists_split_at W i hi
  rw [hsplit] at hp
  rw [hresti, List.eraseIdx_eq_take_drop_succ]
  rcases List.mem_append.mp hp with h1 | h1
  · right; exact List.mem_append_left _ h1
  · rcases List.mem_cons.mp h1 with h2 | h2
    · left; rw [h2]; exact hqi.symm
    · right; exact List.mem_append_right _ h2

/-- The success invariant: some worklist path can reach the goal state from
its last state through in-bounds cells avoiding the visited set. -/
def SuccInv (sd : SensorData) (goalS : DriveState) (V : List DriveState)
    (W : List (List DriveState)) : Prop :=
  ∃ p ∈ W, p ≠ [] ∧ ReachAvoiding sd V (lastState p) goalS

/-- One loop step preserves the success invariant when the popped path's
last state is not the goal. -/
theorem succInv_step (sd : SensorData) (goalS : DriveState) (V : List DriveState)
    (W : List (List DriveState)) (q : List DriveState) (rest : List (List DriveState))
    (hgoal : lastState q ≠ goalS)
    (hsurv : ∀ p ∈ W, p = q ∨ p ∈ rest)
    (hInv : SuccInv sd goalS V W) :
    SuccInv sd goalS (lastState q :: V)
      (rest ++ ((list_all_next_possible_states (lastState q)).filter
        (fun s => !(decide (s ∈ lastState q :: V)) && is_state_in_bounds s sd)).map
        (fun s => q ++ [s])) := by
  by_cases hcr : ReachAvoiding sd V (lastState q) goalS
  · rcases reachAvoiding_expand sd V (lastState q) goalS hcr with heq | hex
    · exact absurd heq hgoal
    · obtain ⟨w, hstep, hfree, hnv, hreach⟩ := hex
      refine ⟨q ++ [w], ?_, by simp, ?_⟩
      · apply List.mem_append_right
        apply List.mem_map.mpr
        refine ⟨w, ?_, rfl⟩
        apply List.mem_filter.mpr
        refine ⟨(mem_list_all_iff _ w).mpr hstep, ?_⟩
        rw [Bool.and_eq_true, Bool.not_eq_true', decide_eq_false_iff_not]
        exact ⟨hnv, hfree⟩
      · rw [lastState_append_single]
        exact hreach
  · obtain ⟨p, hpW, hpne, hpreach⟩ := hInv
    have hprest : p ∈ rest := by
      rcases hsurv p hpW with h | h
      · exfalso; rw [h] at hpreach; exact hcr hpreach
      · exact h
    refine ⟨p, List.mem_append_left _ hprest, hpne, ?_⟩
    obtain ⟨l, hl⟩ := hpreach
    by_cases hcl : lastState q ∈ l
    · exfalso
      obtain ⟨l2, _, hl2⟩ := isRoute_suffix sd V (lastState p) l goalS (lastState q) hl hcl
      exact hcr ⟨l2, hl2⟩
    · exact ⟨l, isRoute_avoid_cons sd V (lastState p) l goalS (lastState q) hl hcl⟩

/-- Master run lemma for the worklist loop on a bounded grid: with enough
fuel the loop either succeeds with a solved plan, or fails with an empty
worklist — in which case the success invariant did not hold. -/
theorem dfsLoop_master (sd : SensorData) (goal : Int × Int) (start : DriveState)
    (T : Finset DriveState)
    (hclosed : ∀ u ∈ T, ∀ v ∈ list_all_next_possible_states u,
      is_state_in_bounds v sd = true → v ∈ T) :
    ∀ (fuel : Nat) (V : List DriveState) (W : List (List DriveState)),
      (∀ q ∈ W, GoodPath sd start V q ∧ TPath T q) →
      wMeasure T.card W < fuel →
      (∃ p, dfsLoop sd goal fuel V W = DfsResult.found p ∧
        SolvedPlan sd start goal p) ∨
      (dfsLoop sd goal fuel V W = DfsResult.noPath ∧
        ¬ SuccInv sd ⟨goal.1, goal.2⟩ V W) := by
  intro fuel
  induction fuel with
  | zero => intro V W _ hm; exact absurd hm (Nat.not_lt_zero _)
  | succ n ih =>
    intro V W hW hm
    cases hsel : select_open_node W goal with
    | none =>
      right
      refine ⟨dfsLoop_succ_none sd goal n V W hsel, ?_⟩
      cases W with
      | nil => rintro ⟨p, hp, _⟩; simp at hp
      | cons a tl => simp [select_open_node] at hsel
    | some qr =>
      obtain ⟨q, rest⟩ := qr
      rw [dfsLoop_succ_some sd goal n V W q rest hsel]
      obtain ⟨i, hi, hqi, hresti, _, _⟩ := select_open_node_spec W goal q rest hsel
      have hqW : q ∈ W := by
        rw [hqi, List.getD_eq_getElem _ _ hi]; exact List.getElem_mem hi
      obtain ⟨hgq, htq⟩ := hW q hqW
      by_cases hgoal : (lastState q).x = goal.1 ∧ (lastState q).y = goal.2
      · left
        refine ⟨q, by rw [if_pos hgoal], ?_⟩
        refine ⟨hgq.1, hgq.2.1, hgq.2.2.1, hgq.2.2.2.1, hgq.2.2.2.2.1, ?_⟩
        have hxy : lastState q = ⟨(lastState q).x, (lastState q).y⟩ := rfl
        rw [hxy, hgoal.1, hgoal.2]
      · rw [if_neg hgoal]
        have hcurrT : lastState q ∈ T := htq _ (lastState_mem q hgq.1)
        have hWnew : ∀ r ∈ rest ++ ((list_all_next_possible_states (lastState q)).filter
            (fun s => !(decide (s ∈ lastState q :: V)) && is_state_in_bounds s sd)).map
            (fun s => q ++ [s]),
            GoodPath sd start (lastState q :: V) r ∧ TPath T r := by
          intro r hr
          rcases List.mem_append.mp hr with h1 | h1
          · obtain ⟨hg, ht⟩ := hW r (by
              rw [hresti] at h1; exact List.eraseIdx_subset W i h1)
            exact ⟨goodPath_mono sd start V _ r
              (fun v hv => List.mem_cons_of_mem _ hv) hg, ht⟩
          · obtain ⟨s, hs, rfl⟩ := List.mem_map.mp h1
            have hs2 := List.mem_filter.mp hs
            have hstep : IsMoveStep (lastState q) s := (mem_list_all_iff _ _).mp hs2.1
            have hcond := hs2.2
            rw [Bool.and_eq_true, Bool.not_eq_true', decide_eq_false_iff_not] at hcond
            refine ⟨goodPath_child sd start V q s hgq hstep hcond.2 hcond.1, ?_⟩
            intro t ht
            rcases List.mem_append.mp ht with h2 | h2
            · exact htq t h2
            · simp only [List.mem_singleton] at h2
              rw [h2]
              exact hclosed _ hcurrT s hs2.1 hcond.2
        have hch5 : ((list_all_next_possible_states (lastState q)).filter
            (fun s => !(decide (s ∈ lastState q :: V)) && is_state_in_bounds s sd)).length
            ≤ 5 := by
          have h5 := List.length_filter_le
            (fun s => !(decide (s ∈ lastState q :: V)) && is_state_in_bounds s sd)
            (list_all_next_possible_states (lastState q))
          simpa [list_all_next_possible_states_eq] using h5
        have hchlen : ∀ s ∈ (list_all_next_possible_states (lastState q)).filter
            (fun s => !(decide (s ∈ lastState q :: V)) && is_state_in_bounds s sd),
            q.length + 1 ≤ T.card := by
          intro s hs
          have hchild := hWnew (q ++ [s])
            (List.mem_append_right _ (List.mem_map.mpr ⟨s, hs, rfl⟩))
          have hlen := nodup_subset_card T (q ++ [s]) hchild.1.2.2.2.2.1 hchild.2
          simpa using hlen
        have hmnew : wMeasure T.card (rest ++ ((list_all_next_possible_states
            (lastState q)).filter (fun s => !(decide (s ∈ lastState q :: V)) &&
            is_state_in_bounds s sd)).map (fun s => q ++ [s])) < wMeasure T.card W :=
          wMeasure_step_lt T.card W i hi q rest hqi hresti _ hch5 hchlen
        rcases ih _ _ hWnew (by omega) with h | h
        · left; exact h
        · right
          refine ⟨h.1, ?_⟩
          intro hInv
          apply h.2
          have hgoalS : lastState q ≠ (⟨goal.1, goal.2⟩ : DriveState) := by
            intro he
            apply hgoal
            rw [he]
            exact ⟨rfl, rfl⟩
          exact succInv_step sd ⟨goal.1, goal.2⟩ V W q rest hgoalS
            (pop_survives W goal q rest hsel) hInv

/-- C1: whenever the planner succeeds, the stored plan is nonempty, starts at
the snapshot's player location, ends at the goal, and every consecutive pair
of plan states differs by exactly the delta of one move of
`{NONE, UP, DOWN, LEFT, RIGHT}`; and on a bounded grid — a finite set `T` of
cells containing the start and closed under in-bounds moves — with the goal
reachable through in-bounds cells, the planner terminates with success for
every fuel of at least `6 ^ T.card`. -/
theorem planner_sound_and_complete :
    (∀ (sd : SensorData) (goal : Int × Int) (fuel : Nat) (p : List DriveState),
      dfs_solve_path_to_goal fuel sd goal = DfsResult.found p →
      p ≠ [] ∧ p.head? = some ⟨sd.player_location.1, sd.player_location.2⟩ ∧
        List.Chain' IsMoveStep p ∧ lastState p = ⟨goal.1, goal.2⟩) ∧
    (∀ (sd : SensorData) (goal : Int × Int) (T : Finset DriveState),
      (⟨sd.player_location.1, sd.player_location.2⟩ : DriveState) ∈ T →
      (∀ u ∈ T, ∀ v ∈ list_all_next_possible_states u,
        is_state_in_bounds v sd = true → v ∈ T) →
      ReachAvoiding sd [] ⟨sd.player_location.1, sd.player_location.2⟩
        ⟨goal.1, goal.2⟩ →
      ∀ fuel : Nat, 6 ^ T.card ≤ fuel →
      ∃ p, dfs_solve_path_to_goal fuel sd goal = DfsResult.found p) := by
  constructor
  · intro sd goal fuel p h
    have hs := dfs_found_solvedPlan sd goal fuel p h
    exact ⟨hs.1, hs.2.1, hs.2.2.1, hs.2.2.2.2.2⟩
  · intro sd goal T hstart hclosed hreach fuel hfuel
    have hcard : 1 ≤ T.card := Finset.card_pos.mpr
      ⟨⟨sd.player_location.1, sd.player_location.2⟩, hstart⟩
    have hminit :
        wMeasure T.card [[(⟨sd.player_location.1, sd.player_location.2⟩ : DriveState)]]
          < fuel := by
      have h1 : wMeasure T.card
          [[(⟨sd.player_location.1, sd.player_location.2⟩ : DriveState)]] =
          6 ^ (T.card - 1) := by
        simp [wMeasure]
      have h2 : 6 ^ (T.card - 1) < 6 ^ T.card :=
        Nat.pow_lt_pow_right (by omega) (by omega)
      omega
    have hW0 : ∀ q ∈ [[(⟨sd.player_location.1, sd.player_location.2⟩ : DriveState)]],
        GoodPath sd ⟨sd.player_location.1, sd.player_location.2⟩ [] q ∧ TPath T q := by
      intro q hq
      simp only [List.mem_singleton] at hq
      subst hq
      refine ⟨goodPath_init sd _, ?_⟩
      intro s hs
      simp only [List.mem_singleton] at hs
      rw [hs]
      exact hstart
    rcases dfsLoop_master sd goal ⟨sd.player_location.1, sd.player_location.2⟩ T
        hclosed fuel [] _ hW0 hminit with h | h
    · obtain ⟨p, hp, _⟩ := h
      exact ⟨p, hp⟩
    · exfalso
      apply h.2
      exact ⟨[⟨sd.player_location.1, sd.player_location.2⟩],
        List.mem_singleton_self _, by simp, hreach⟩

/-- C1 witness: the player of `sdEnclosed` starts on its goal `(0,0)`;
`T = {(0,0)}` is closed under in-bounds moves, and fuel 6 suffices. -/
theorem planner_sound_and_complete_witness :
    ((⟨0, 0⟩ : DriveState) ∈ ({⟨0, 0⟩} : Finset DriveState)) ∧
    (6 ^ ({⟨0, 0⟩} : Finset DriveState).card ≤ 6) ∧
    ∃ p, dfs_solve_path_to_goal 6 sdEnclosed (0, 0) = DfsResult.found p :=
  ⟨by decide, by decide,
    planner_sound_and_complete.2 sdEnclosed (0, 0) {⟨0, 0⟩} (by decide) (by decide)
      ⟨[], List.chain'_singleton _, rfl, by simp⟩ 6 (by decide)⟩

/-- A solved plan yields an in-bounds route from the start to the goal. -/
theorem solvedPlan_reach (sd : SensorData) (start : DriveState) (goal : Int × Int)
    (p : List DriveState) (hp : SolvedPlan sd start goal p) :
    ReachAvoiding sd [] start ⟨goal.1, goal.2⟩ := by
  obtain ⟨h1, h2, h3, h4, _, h6⟩ := hp
  have hp2 : p = start :: p.tail := by
    cases p with
    | nil => exact absurd rfl h1
    | cons a tl =>
      simp only [List.head?_cons, Option.some.injEq] at h2
      rw [h2]
      rfl
  refine ⟨p.tail, ?_, ?_, ?_⟩
  · rw [← hp2]; exact h3
  · rw [← hp2]; exact h6
  · intro w hw; exact ⟨h4 w hw, by simp⟩

/-- C7 (amended): whenever there is a finite set `T` of cells containing the
start and closed under in-bounds moves (a bounded grid) and the goal is not
reachable from the start through in-bounds cells, the planner terminates and
reports failure, for every fuel of at least `6 ^ T.card`. -/
theorem planner_no_path_terminates_fails (sd : SensorData) (goal : Int × Int)
    (T : Finset DriveState)
    (hstart : (⟨sd.player_location.1, sd.player_location.2⟩ : DriveState) ∈ T)
    (hclosed : ∀ u ∈ T, ∀ v ∈ list_all_next_possible_states u,
      is_state_in_bounds v sd = true → v ∈ T)
    (hnoreach : ¬ ReachAvoiding sd [] ⟨sd.player_location.1, sd.player_location.2⟩
      ⟨goal.1, goal.2⟩) :
    ∀ fuel : Nat, 6 ^ T.card ≤ fuel →
      dfs_solve_path_to_goal fuel sd goal = DfsResult.noPath := by
  intro fuel hfuel
  have hcard : 1 ≤ T.card := Finset.card_pos.mpr
    ⟨⟨sd.player_location.1, sd.player_location.2⟩, hstart⟩
  have hminit :
      wMeasure T.card [[(⟨sd.player_location.1, sd.player_location.2⟩ : DriveState)]]
        < fuel := by
    have h1 : wMeasure T.card
        [[(⟨sd.player_location.1, sd.player_location.2⟩ : DriveState)]] =
        6 ^ (T.card - 1) := by
      simp [wMeasure]
    have h2 : 6 ^ (T.card - 1) < 6 ^ T.card :=
      Nat.pow_lt_pow_right (by omega) (by omega)
    omega
  have hW0 : ∀ q ∈ [[(⟨sd.player_location.1, sd.player_location.2⟩ : DriveState)]],
      GoodPath sd ⟨sd.player_location.1, sd.player_location.2⟩ [] q ∧ TPath T q := by
    intro q hq
    simp only [List.mem_singleton] at hq
    subst hq
    refine ⟨goodPath_init sd _, ?_⟩
    intro s hs
    simp only [List.mem_singleton] at hs
    rw [hs]
    exact hstart
  rcases dfsLoop_master sd goal ⟨sd.player_location.1, sd.player_location.2⟩ T
      hclosed fuel [] _ hW0 hminit with h | h
  · exfalso
    obtain ⟨p, _, hsp⟩ := h
    exact hnoreach (solvedPlan_reach sd _ goal p hsp)
  · exact h.1

/-- No route leaves the enclosed start cell of `sdEnclosed`. -/
theorem enclosed_no_route_aux :
    ∀ l : List DriveState, ¬ IsRoute sdEnclosed [] ⟨0, 0⟩ l ⟨2, 2⟩ := by
  intro l
  induction l with
  | nil =>
    rintro ⟨_, hlast, _⟩
    exact absurd hlast (by decide)
  | cons w rest ih =>
    rintro ⟨hchain, hlast, hmem⟩
    rw [List.chain'_cons] at hchain
    have hw := hmem w (by simp)
    have hwz : w = ⟨0, 0⟩ := by
      rcases (isMoveStep_iff _ _).mp hchain.1 with h | h | h | h | h <;> subst h
      · rfl
      all_goals exact absurd hw.1 (by decide)
    subst hwz
    exact ih ⟨hchain.2, hlast, fun v hv => hmem v (List.mem_cons_of_mem _ hv)⟩

theorem enclosed_no_route : ¬ ReachAvoiding sdEnclosed [] ⟨0, 0⟩ ⟨2, 2⟩ := by
  rintro ⟨l, hl⟩
  exact enclosed_no_route_aux l hl

/-- C7 witness for the amended statement: `sdEnclosed` with `T = {(0,0)}`. -/
theorem planner_no_path_terminates_fails_witness :
    ((⟨0, 0⟩ : DriveState) ∈ ({⟨0, 0⟩} : Finset DriveState)) ∧
    (6 ^ ({⟨0, 0⟩} : Finset DriveState).card ≤ 6) ∧
    dfs_solve_path_to_goal 6 sdEnclosed (2, 2) = DfsResult.noPath :=
  ⟨by decide, by decide,
    planner_no_path_terminates_fails sdEnclosed (2, 2) {⟨0, 0⟩} (by decide)
      (by decide) enclosed_no_route 6 (by decide)⟩

/-! ### Divergence of the planner on an unbounded free region -/

/-- A snapshot whose goal `(0,0)` is walled off by the four boundary cells
around it, while the player at `(3,0)` roams an unbounded free region: no
path to the goal exists, yet the worklist never empties. -/
def sdRing : SensorData :=
  { field_boundaries := [(1, 0), (-1, 0), (0, 1), (0, -1)]
    drive_locations := []
    player_location := (3, 0)
    goal_locations := [(0, 0)] }

/-- Stepping from an in-bounds non-goal cell of `sdRing` never reaches the
goal cell `(0,0)`: all four neighbours of the goal are boundary cells. -/
theorem ring_child_ne_goal (curr w : DriveState)
    (hcf : is_state_in_bounds curr sdRing = true)
    (hcg : curr ≠ ⟨0, 0⟩)
    (hstep : IsMoveStep curr w) : w ≠ ⟨0, 0⟩ := by
  intro hw
  subst hw
  obtain ⟨cx, cy⟩ := curr
  rcases (isMoveStep_iff _ _).mp hstep with h | h | h | h | h <;>
      simp only [DriveState.mk.injEq] at h
  · exact hcg (by simp only [DriveState.mk.injEq]; omega)
  · have hx : cx = 0 := by omega
    have hy : cy = -1 := by omega
    rw [hx, hy] at hcf
    exact absurd hcf (by decide)
  · have hx : cx = 0 := by omega
    have hy : cy = 1 := by omega
    rw [hx, hy] at hcf
    exact absurd hcf (by decide)
  · have hx : cx = 1 := by omega
    have hy : cy = 0 := by omega
    rw [hx, hy] at hcf
    exact absurd hcf (by decide)
  · have hx : cx = -1 := by omega
    have hy : cy = 0 := by omega
    rw [hx, hy] at hcf
    exact absurd hcf (by decide)

theorem exists_max_x : ∀ (V : List DriveState), V ≠ [] →
    ∃ m ∈ V, ∀ v ∈ V, v.x ≤ m.x := by
  intro V
  induction V with
  | nil => intro h; exact absurd rfl h
  | cons a tl ih =>
    intro _
    by_cases htl : tl = []
    · subst htl
      refine ⟨a, by simp, ?_⟩
      intro v hv
      simp only [List.mem_singleton] at hv
      rw [hv]
    · obtain ⟨m, hm, hmax⟩ := ih htl
      by_cases hax : m.x ≤ a.x
      · refine ⟨a, by simp, ?_⟩
        intro v hv
        rcases List.mem_cons.mp hv with h | h
        · rw [h]
        · exact le_trans (hmax v h) hax
      · refine ⟨m, List.mem_cons_of_mem _ hm, ?_⟩
        intro v hv
        rcases List.mem_cons.mp hv with h | h
        · rw [h]; omega
        · exact hmax v h

/-- Loop invariant of the planner on `sdRing`: all worklist paths are
nonempty and consist of in-bounds non-goal cells; and either the run has not
expanded anything yet, or the start is visited and every unvisited in-bounds
neighbour of a visited cell is the last state of some worklist path. -/
def RingInv (V : List DriveState) (W : List (List DriveState)) : Prop :=
  (∀ p ∈ W, p ≠ [] ∧ ∀ s ∈ p, is_state_in_bounds s sdRing = true ∧ s ≠ ⟨0, 0⟩) ∧
  ((V = [] ∧ W = [[⟨3, 0⟩]]) ∨
    ((⟨3, 0⟩ : DriveState) ∈ V ∧
      (∀ c : DriveState, is_state_in_bounds c sdRing = true → c ∉ V →
        (∃ v ∈ V, IsMoveStep v c) → ∃ p ∈ W, lastState p = c)))

theorem ringInv_W_ne_nil (V : List DriveState) (W : List (List DriveState))
    (hInv : RingInv V W) : W ≠ [] := by
  obtain ⟨_, hbranch⟩ := hInv
  rcases hbranch with ⟨_, hW⟩ | ⟨h30, hJ⟩
  · rw [hW]; simp
  · have hVne : V ≠ [] := by
      intro h
      rw [h] at h30
      simp at h30
    obtain ⟨m, hm, hmax⟩ := exists_max_x V hVne
    have hm3 : (3 : Int) ≤ m.x := by
      have h2 := hmax ⟨3, 0⟩ h30
      simpa using h2
    have hcfree : is_state_in_bounds ⟨m.x + 1, m.y⟩ sdRing = true := by
      simp only [is_state_in_bounds, sdRing, decide_eq_true_eq]
      intro hmem
      simp only [List.mem_cons, List.not_mem_nil, Prod.mk.injEq, or_false] at hmem
      rcases hmem with ⟨h1, _⟩ | ⟨h1, _⟩ | ⟨h1, _⟩ | ⟨h1, _⟩ <;> omega
    have hcnv : (⟨m.x + 1, m.y⟩ : DriveState) ∉ V := by
      intro hmem
      have h2 := hmax _ hmem
      simp only at h2
      omega
    have hcadj : ∃ v ∈ V, IsMoveStep v ⟨m.x + 1, m.y⟩ := by
      refine ⟨m, hm, ?_⟩
      rw [isMoveStep_iff]
      right; right; right; right
      rfl
    obtain ⟨p, hpW, _⟩ := hJ _ hcfree hcnv hcadj
    intro hWnil
    rw [hWnil] at hpW
    simp at hpW

/-- On `sdRing` the planner's loop never returns: the goal check never fires
(no worklist path touches the walled-off goal) and the worklist never
empties (the unbounded frontier always has a witness). -/
theorem ring_run : ∀ (fuel : Nat) (V : List DriveState) (W : List (List DriveState)),
    RingInv V W → dfsLoop sdRing (0, 0) fuel V W = DfsResult.outOfFuel := by
  intro fuel
  induction fuel with
  | zero => intro V W _; rfl
  | succ n ih =>
    intro V W hInv
    have hWne : W ≠ [] := ringInv_W_ne_nil V W hInv
    obtain ⟨hpaths, hbranch⟩ := hInv
    obtain ⟨q, rest, hsel⟩ : ∃ q rest, select_open_node W (0, 0) = some (q, rest) := by
      cases W with
      | nil => exact absurd rfl hWne
      | cons a tl => exact ⟨_, _, rfl⟩
    obtain ⟨i, hi, hqi, hresti, _, _⟩ := select_open_node_spec W (0, 0) q rest hsel
    have hqW : q ∈ W := by
      rw [hqi, List.getD_eq_getElem _ _ hi]
      exact List.getElem_mem hi
    have hrestsub : ∀ p ∈ rest, p ∈ W := by
      intro p hp
      rw [hresti] at hp
      exact List.eraseIdx_subset W i hp
    have hqprops := hpaths q hqW
    have hcurr := hqprops.2 (lastState q) (lastState_mem q hqprops.1)
    have hgoal : ¬ ((lastState q).x = ((0, 0) : Int × Int).1 ∧
        (lastState q).y = ((0, 0) : Int × Int).2) := by
      intro h
      apply hcurr.2
      have hxy : lastState q = ⟨(lastState q).x, (lastState q).y⟩ := rfl
      rw [hxy, h.1, h.2]
    rw [dfsLoop_succ_some sdRing (0, 0) n V W q rest hsel, if_neg hgoal]
    apply ih
    constructor
    · intro p hp
      rcases List.mem_append.mp hp with h1 | h1
      · exact hpaths p (hrestsub p h1)
      · obtain ⟨s, hs, rfl⟩ := List.mem_map.mp h1
        have hs2 := List.mem_filter.mp hs
        have hstep : IsMoveStep (lastState q) s := (mem_list_all_iff _ _).mp hs2.1
        have hcond := hs2.2
        rw [Bool.and_eq_true, Bool.not_eq_true', decide_eq_false_iff_not] at hcond
        refine ⟨by simp, ?_⟩
        intro t ht
        rcases List.mem_append.mp ht with h2 | h2
        · exact hqprops.2 t h2
        · simp only [List.mem_singleton] at h2
          subst h2
          exact ⟨hcond.2, ring_child_ne_goal (lastState q) t hcurr.1 hcurr.2 hstep⟩
    · right
      constructor
      · rcases hbranch with ⟨hV, hW⟩ | ⟨h30, _⟩
        · rw [hW] at hqW
          simp only [List.mem_singleton] at hqW
          subst hqW
          exact List.mem_cons_self _ _
        · exact List.mem_cons_of_mem _ h30
      · intro c hcfree hcnV hcadj
        obtain ⟨v, hv, hstepvc⟩ := hcadj
        rcases List.mem_cons.mp hv with hveq | hvV
        · subst hveq
          refine ⟨q ++ [c], ?_, lastState_append_single q c⟩
          apply List.mem_append_right
          apply List.mem_map.mpr
          refine ⟨c, ?_, rfl⟩
          apply List.mem_filter.mpr
          refine ⟨(mem_list_all_iff _ c).mpr hstepvc, ?_⟩
          rw [Bool.and_eq_true, Bool.not_eq_true', decide_eq_false_iff_not]
          exact ⟨hcnV, hcfree⟩
        · rcases hbranch with ⟨hV, _⟩ | ⟨_, hJ⟩
          · exfalso
            rw [hV] at hvV
            simp at hvV
          · have hcne : c ≠ lastState q := by
              intro h
              exact hcnV (h ▸ List.mem_cons_self _ _)
            have hcnotV : c ∉ V := fun h => hcnV (List.mem_cons_of_mem _ h)
            obtain ⟨p, hpW, hplast⟩ := hJ c hcfree hcnotV ⟨v, hvV, hstepvc⟩
            rcases pop_survives W (0, 0) q rest hsel p hpW with heq | hprest
            · exfalso
              apply hcne
              rw [← hplast, heq]
            · exact ⟨p, List.mem_append_left _ hprest, hplast⟩

/-- Routes through in-bounds cells of `sdRing` starting at an in-bounds
non-goal cell never reach the walled-off goal. -/
theorem ring_no_route_aux :
    ∀ (l : List DriveState) (u : DriveState),
      is_state_in_bounds u sdRing = true → u ≠ ⟨0, 0⟩ →
      ¬ IsRoute sdRing [] u l ⟨0, 0⟩ := by
  intro l
  induction l with
  | nil =>
    intro u _ hne
    rintro ⟨_, hlast, _⟩
    exact hne hlast
  | cons w rest ih =>
    intro u hufree hune
    rintro ⟨hchain, hlast, hmem⟩
    rw [List.chain'_cons] at hchain
    have hw := hmem w (by simp)
    have hwne : w ≠ ⟨0, 0⟩ := ring_child_ne_goal u w hufree hune hchain.1
    exact ih w hw.1 hwne
      ⟨hchain.2, hlast, fun v hv => hmem v (List.mem_cons_of_mem _ hv)⟩

/-- C7 counterexample: on `sdRing` no in-bounds path from the start `(3,0)`
to the goal `(0,0)` exists, yet the planner neither fails nor succeeds at any
fuel — its worklist loop runs forever instead of terminating with failure. -/
theorem planner_unbounded_no_path_diverges :
    (¬ ReachAvoiding sdRing [] ⟨3, 0⟩ ⟨0, 0⟩) ∧
    ∀ fuel : Nat, dfs_solve_path_to_goal fuel sdRing (0, 0) = DfsResult.outOfFuel := by
  constructor
  · rintro ⟨l, hl⟩
    exact ring_no_route_aux l ⟨3, 0⟩ (by decide) (by decide) hl
  · intro fuel
    apply ring_run fuel [] [[⟨3, 0⟩]]
    refine ⟨?_, Or.inl ⟨rfl, rfl⟩⟩
    intro p hp
    simp only [List.mem_singleton] at hp
    subst hp
    refine ⟨by simp, ?_⟩
    intro s hs
    simp only [List.mem_singleton] at hs
    subst hs
    exact ⟨by decide, by decide⟩
